import Mathlib

/-!
Verification of the sparx host-inventory manager (src/sparx.py) against its
natural-language specification.  Strings are modelled as `List Char`
(Python `str`), files as lists of lines (`List (List Char)`, the result of
splitting the written file on the newline character; every `f.write` in the
source ends in a single `'\n'` and no modelled field contains a newline, so
the line lists correspond exactly to the bytes on disk).  External effects
(DNS resolution, the random token source, SSH-key detection on the local
filesystem) are passed in as explicit parameters.
-/

namespace Sparx

/-- Python strings, modelled as lists of characters. -/
abbrev Str := List Char

/-- Python `str.lower()` restricted to the ASCII inputs the program handles
(hostnames, IPs and bracket patterns are ASCII). -/
def lowerStr (l : Str) : Str := l.map Char.toLower

/-- The whitespace characters removed by Python `str.strip()` (ASCII part). -/
def pyIsSpace (c : Char) : Bool :=
  c == ' ' || c == '\t' || c == '\n' || c == '\r' || c == '\x0b' || c == '\x0c'

/-- Python `str.lstrip()`. -/
def lstrip (l : Str) : Str := l.dropWhile pyIsSpace

/-- Python `str.rstrip()`. -/
def rstrip (l : Str) : Str := (l.reverse.dropWhile pyIsSpace).reverse

/-- Python `str.strip()`. -/
def pyStrip (l : Str) : Str := rstrip (lstrip l)

/-- Split at the first occurrence of `m`: returns the text before the first
occurrence and the text after it, or `none` when `m` does not occur.  This is
the building block for Python `str.split(sep)` as used in
`load_k0sctl_config` (`sparx.py:870`), where only `parts[1]` is consumed. -/
def splitFirst (m : Str) : Str → Option (Str × Str)
  | [] => none
  | c :: cs =>
    if m.isPrefixOf (c :: cs) then some ([], (c :: cs).drop m.length)
    else
      match splitFirst m cs with
      | some (p, r) => some (c :: p, r)
      | none => none

/-- Python `line.split(m)[1]` applied to the text after the first occurrence
of `m`: the second element of the split is the chunk between the first and
the second occurrence of the separator (or everything after the first
occurrence when it occurs only once). -/
def segAfterFirst (m : Str) (l : Str) : Str :=
  match splitFirst m l with
  | some (p, _) => p
  | none => l

/-- The literal marker `load_k0sctl_config` scans each line for
(`sparx.py:867`). -/
def authMarker : Str := "authPass:".data

/-- One iteration of the `authPass:` scan of `load_k0sctl_config`
(`sparx.py:867-872`): strip the line; if it contains `authPass:`, the stored
value is `line.split('authPass:')[1].strip()`. -/
def extractAuthPass (line : Str) : Option Str :=
  match splitFirst authMarker (pyStrip line) with
  | some (_, rest) => some (pyStrip (segAfterFirst authMarker rest))
  | none => none

/-- The full scan of `load_k0sctl_config` over the file's lines
(`sparx.py:856-872`): the loop assigns `found_values['auth_pass']` on every
matching line, so the last matching line wins. -/
def loadAuthPass (lines : List Str) : Option Str :=
  lines.foldl
    (fun acc line =>
      match extractAuthPass line with
      | some v => some v
      | none => acc)
    none

/-- Numeric value of a decimal digit string, as computed by Python
`int(part)` on an all-digit string. -/
def digitsToNat (l : Str) : Nat := l.foldl (fun a c => a * 10 + (c.toNat - 48)) 0

/-- Fuel-driven decimal rendering helper (the fuel is always sufficient when
called through `natDigits`). -/
def natDigitsAux : Nat → Nat → Str → Str
  | 0, _, acc => acc
  | fuel + 1, n, acc =>
    let d : Char := Char.ofNat (48 + n % 10)
    if n < 10 then d :: acc else natDigitsAux fuel (n / 10) (d :: acc)

/-- Python `str(i)` for a non-negative integer. -/
def natDigits (n : Nat) : Str := natDigitsAux (n + 1) n []

/-- Python `str.zfill(w)` for non-negative numerals: left-pad with zeros up
to width `w`. -/
def zfill (w : Nat) (l : Str) : Str := List.replicate (w - l.length) '0' ++ l

/-- Attempt to read `\d+-\d+\]` at the current position, i.e. the inside of
the bracket group of the regex `(.*)\[(\d+)-(\d+)\](.*)` used by
`expand_host_pattern` (`sparx.py:1304`).  The digit class is disjoint from
`'-'` and `']'`, so greedy matching is maximal-munch and needs no
backtracking. -/
def parseBracketDash (l : Str) : Option (Str × Str × Str) :=
  let m := l.takeWhile Char.isDigit
  if m.isEmpty then none
  else
    match l.drop m.length with
    | '-' :: r2 =>
      let n := r2.takeWhile Char.isDigit
      if n.isEmpty then none
      else
        match r2.drop n.length with
        | ']' :: suf => some (m, n, suf)
        | _ => none
    | _ => none

/-- Same for the colon form `\d+:\d+\]` of the regex
`(.*)\[(\d+):(\d+)\](.*)` (`sparx.py:1317`). -/
def parseBracketColon (l : Str) : Option (Str × Str × Str) :=
  let m := l.takeWhile Char.isDigit
  if m.isEmpty then none
  else
    match l.drop m.length with
    | ':' :: r2 =>
      let n := r2.takeWhile Char.isDigit
      if n.isEmpty then none
      else
        match r2.drop n.length with
        | ']' :: suf => some (m, n, suf)
        | _ => none
    | _ => none

/-- Model of `re.search(r'(.*)\[(\d+)-(\d+)\](.*)', pattern)`: the leading greedy
`(.*)` makes the regex engine choose the rightmost `'['` from which
`\d+-\d+\]` parses; the trailing greedy `(.*)` takes the rest of the string.
The recursion prefers a match found further right, mirroring that choice. -/
def searchDash : Str → Option (Str × Str × Str × Str)
  | [] => none
  | c :: cs =>
    match searchDash cs with
    | some (p, m, n, suf) => some (c :: p, m, n, suf)
    | none =>
      if c = '[' then
        match parseBracketDash cs with
        | some (m, n, suf) => some ([], m, n, suf)
        | none => none
      else none

/-- Model of `re.search(r'(.*)\[(\d+):(\d+)\](.*)', pattern)`, as for `searchDash`. -/
def searchColon : Str → Option (Str × Str × Str × Str)
  | [] => none
  | c :: cs =>
    match searchColon cs with
    | some (p, m, n, suf) => some (c :: p, m, n, suf)
    | none =>
      if c = '[' then
        match parseBracketColon cs with
        | some (m, n, suf) => some ([], m, n, suf)
        | none => none
      else none

/-- Model of `expand_host_pattern` (`sparx.py:1299-1323`).  Bracket-free input is
returned as a singleton; a dash range expands `range(int(start), int(end)+1)`
with zero padding exactly when the start literal has a leading zero and more
than one digit; a colon range always zero-pads; anything else is returned as
a singleton. -/
def expand_host_pattern (pat : Str) : List Str :=
  if ¬ ('[' ∈ pat ∧ ']' ∈ pat) then [pat]
  else
    match searchDash pat with
    | some (pre, m, n, suf) =>
      let a := digitsToNat m
      let b := digitsToNat n
      if m.head? = some '0' ∧ 1 < m.length then
        (List.range (b + 1 - a)).map (fun k => pre ++ zfill m.length (natDigits (a + k)) ++ suf)
      else
        (List.range (b + 1 - a)).map (fun k => pre ++ natDigits (a + k) ++ suf)
    | none =>
      match searchColon pat with
      | some (pre, m, n, suf) =>
        let a := digitsToNat m
        let b := digitsToNat n
        (List.range (b + 1 - a)).map (fun k => pre ++ zfill m.length (natDigits (a + k)) ++ suf)
      | none => [pat]

/-! ### Hostname validation (`HostInput.validate_hostname`, `sparx.py:157-200`) -/

/-- The character class `[a-zA-Z0-9.-]` of the bracket-pattern regexes. -/
def isHostPatChar (c : Char) : Bool := c.isAlphanum || c == '.' || c == '-'

/-- Full match of `^[a-zA-Z0-9.-]*\[(\d+)-(\d+)\][a-zA-Z0-9.-]*$`
(`sparx.py:166`).  The head class excludes `'['`, the digit class excludes
`'-'` and `']'`, and the tail class must cover the whole remainder, so the
greedy regex is equivalent to this maximal-munch scan. -/
def matchPattern1 (v : Str) : Bool :=
  let pre := v.takeWhile isHostPatChar
  match v.drop pre.length with
  | '[' :: r1 =>
    let m := r1.takeWhile Char.isDigit
    if m.isEmpty then false
    else
      match r1.drop m.length with
      | '-' :: r2 =>
        let n := r2.takeWhile Char.isDigit
        if n.isEmpty then false
        else
          match r2.drop n.length with
          | ']' :: r3 => r3.all isHostPatChar
          | _ => false
      | _ => false
  | _ => false

/-- Full match of `^[a-zA-Z0-9.-]*\[(\d+):(\d+)\][a-zA-Z0-9.-]*$`
(`sparx.py:168`). -/
def matchPattern2 (v : Str) : Bool :=
  let pre := v.takeWhile isHostPatChar
  match v.drop pre.length with
  | '[' :: r1 =>
    let m := r1.takeWhile Char.isDigit
    if m.isEmpty then false
    else
      match r1.drop m.length with
      | ':' :: r2 =>
        let n := r2.takeWhile Char.isDigit
        if n.isEmpty then false
        else
          match r2.drop n.length with
          | ']' :: r3 => r3.all isHostPatChar
          | _ => false
      | _ => false
  | _ => false

/-- Python `re.split(r'[\[\]]', value)` (`sparx.py:175`): cut the string at
every `'['` or `']'`, keeping empty chunks. -/
def splitOnBrackets (l : Str) : List Str :=
  l.foldr
    (fun c acc =>
      if c = '[' ∨ c = ']' then [] :: acc
      else
        match acc with
        | h :: t => (c :: h) :: t
        | [] => [[c]])
    [[]]

/-- Digit tail of a Python integer literal: digits with single underscores
allowed between digits (`int("1_0")` is legal, `int("1__0")` and a trailing
underscore are not). -/
def pyIntDigitsGo : Nat → Str → Option Nat
  | acc, [] => some acc
  | acc, '_' :: d :: rest =>
    if d.isDigit then pyIntDigitsGo (acc * 10 + (d.toNat - 48)) rest else none
  | acc, d :: rest =>
    if d.isDigit then pyIntDigitsGo (acc * 10 + (d.toNat - 48)) rest else none

/-- Nonempty digit run with underscore rules, as accepted by Python `int`. -/
def pyIntDigits (l : Str) : Option Nat :=
  match l with
  | [] => none
  | d :: rest => if d.isDigit then pyIntDigitsGo (d.toNat - 48) rest else none

/-- Python `int(s)` on ASCII input: strip whitespace, optional sign, digits;
`none` models the `ValueError` caught at `sparx.py:186`. -/
def pyInt (l : Str) : Option Int :=
  match pyStrip l with
  | '+' :: rest => (pyIntDigits rest).map (fun k => (k : Int))
  | '-' :: rest => (pyIntDigits rest).map (fun k => -(k : Int))
  | rest => (pyIntDigits rest).map (fun k => (k : Int))

/-- The bracket-pattern section of `validate_hostname` (`sparx.py:164-187`):
the two anchored regexes, then the loose `^.*\[\d+-\d+\].*$` check (its
existence test is exactly `searchDash`) followed by the `re.split`-based
range comparison; `false` means control falls through to the IP and hostname
checks. -/
def bracketCheck (v : Str) : Bool :=
  if matchPattern1 v then true
  else if matchPattern2 v then true
  else if (searchDash v).isSome then
    let parts := splitOnBrackets v
    if 3 ≤ parts.length then
      match parts[1]? with
      | some p1 =>
        match p1.splitOn '-' with
        | [a, b] =>
          match pyInt a, pyInt b with
          | some x, some y => decide (x ≤ y)
          | _, _ => false
        | _ => false
      | none => false
    else false
  else false

/-- Anchored shape test `^(\d{1,3}\.){3}\d{1,3}$` (`sparx.py:190`, also used
at `sparx.py:513` and `sparx.py:886`): four dot-separated runs of one to
three digits. -/
def isIpShape (v : Str) : Bool :=
  let parts := v.splitOn '.'
  parts.length == 4 && parts.all (fun p => !p.isEmpty && p.length ≤ 3 && p.all Char.isDigit)

/-- Octet range check `all(0 <= int(part) <= 255 for part in parts)`
(`sparx.py:194`); the parts are all-digit when this is reached. -/
def ipOctetsOk (v : Str) : Bool :=
  (v.splitOn '.').all (fun p => digitsToNat p ≤ 255)

/-- One label of the hostname regex
`[a-zA-Z0-9]([a-zA-Z0-9-]{0,61}[a-zA-Z0-9])?`: 1-63 characters over
letters, digits and hyphen, first and last alphanumeric. -/
def isLabel (p : Str) : Bool :=
  match p with
  | [] => false
  | c :: rest =>
    c.isAlphanum && (c :: rest).length ≤ 63
      && rest.all (fun d => d.isAlphanum || d == '-')
      && (match rest.getLast? with
          | none => true
          | some d => d.isAlphanum)

/-- Full match of the hostname regex `^label(\.label)*$` (`sparx.py:199`):
since `'.'` is outside the label classes, this is equivalent to splitting on
dots and requiring every chunk to be a label. -/
def hostnameOk (v : Str) : Bool := (v.splitOn '.').all isLabel

/-- Model of `HostInput.validate_hostname` (`sparx.py:157-200`).  Empty input is
rejected; when both brackets occur the bracket checks may accept; otherwise
(including when every bracket check falls through) an IP-shaped value is
accepted exactly when all octets are in range, and anything else must match
the hostname regex. -/
def validate_hostname (v : Str) : Bool :=
  if v = [] then false
  else if ('[' ∈ v ∧ ']' ∈ v) ∧ bracketCheck v = true then true
  else if isIpShape v then ipOctetsOk v
  else hostnameOk v

/-! ### Data model (`Host`, `sparx.py:33-40`) and manager state -/

/-- The `Host` dataclass (`sparx.py:33-40`).  `connection_status` starts as
`None` ("unknown") and is later overwritten with status strings by the
prober, so it is modelled as `Option Str`; `role` is a plain string in the
source, cycled between `"worker"`, `"controller"` and `"both"`. -/
structure Host where
  name : Str
  enabled : Bool := true
  connection_status : Option Str := none
  role : Str := "both".data
  ip_address : Str := []
deriving DecidableEq

/-- Role cycling of `action_toggle_role` (`sparx.py:806-812`):
worker → controller → both → worker, anything unrecognised → worker. -/
def cycleRole (r : Str) : Str :=
  if r = "worker".data then "controller".data
  else if r = "controller".data then "both".data
  else "worker".data

/-- The parts of the `HostManager` and filesystem state that the modelled
operations read and write: the live host list, the two settings the config
generator consumes, the `auth_pass` attribute (absent until first set, and
Python-falsy when the empty string), and the contents of the two persisted
files (`none` = the file does not exist). -/
structure MState where
  hosts : List Host
  username : Str
  virtual_ip : Str
  auth_pass : Option Str
  inventoryFile : Option (List Str)
  k0sctlFile : Option (List Str)
deriving DecidableEq

/-- External inputs of one `generate_k0sctl_config` call: the SSH key path
returned by `detect_ssh_key_path` (a filesystem probe, `sparx.py:322-350`)
and the token the random source (`secrets.token_hex(4)`, `sparx.py:369`)
would return if consulted. -/
structure GenEnv where
  sshKey : Str
  fresh : Str
deriving DecidableEq

/-- The single-quote character, used by the inventory file layout. -/
def sq : Char := Char.ofNat 39

/-- One line of the inventory file body (`sparx.py:316`):
`    'name',  # Role: role`. -/
def inventoryLine (h : Host) : Str :=
  "    ".data ++ [sq] ++ h.name ++ [sq] ++ ",  # Role: ".data ++ h.role

/-- The plain inventory file written by `save_hosts` (`sparx.py:312-317`):
a Python list literal containing only the enabled hosts. -/
def renderInventory (hosts : List Host) : List Str :=
  ["hosts = [".data] ++ (hosts.filter (fun h => h.enabled)).map inventoryLine ++ ["]".data]

/-- Fixed head of `k0sctl/k0sctl.yaml` (`sparx.py:381-387`). -/
def k0sctlHeader : List Str :=
  ["apiVersion: k0sctl.k0sproject.io/v1beta1".data,
   "kind: Cluster".data,
   "metadata:".data,
   "  name: k0s-cluster".data,
   "  user: admin".data,
   "spec:".data,
   "  hosts:".data]

/-- Role line of one host entry (`sparx.py:391-397`); an unrecognised role
string writes no role line at all. -/
def roleLines (r : Str) : List Str :=
  if r = "worker".data then ["  - role: worker".data]
  else if r = "controller".data then ["  - role: controller".data]
  else if r = "both".data then ["  - role: controller+worker".data]
  else []

/-- Per-host block of the config (`sparx.py:389-404`): only enabled hosts
are emitted, with their resolved address, the shared username, port 22 and
the detected key path. -/
def hostBlock (username sshKey : Str) (h : Host) : List Str :=
  if h.enabled then
    roleLines h.role ++
      ["    ssh:".data,
       "      address: ".data ++ h.ip_address,
       "      user: ".data ++ username,
       "      port: 22".data,
       "      keyPath: ".data ++ sshKey]
  else []

/-- Fixed k0s section between the host list and the keepalived values
(`sparx.py:406-424`), with the constant version string `v1.31.6+k0s.0`. -/
def k0sctlMid : List Str :=
  ["  k0s:".data,
   "    version: v1.31.6+k0s.0".data,
   "    config:".data,
   "      apiVersion: k0s.k0sproject.io/v1beta1".data,
   "      kind: ClusterConfig".data,
   "      metadata:".data,
   "        name: k0s-cluster".data,
   "      spec:".data,
   "        telemetry:".data,
   "          enabled: false".data,
   "        network:".data,
   "          controlPlaneLoadBalancing:".data,
   "            enabled: true".data,
   "            type: Keepalived".data,
   "            keepalived:".data,
   "              vrrpInstances:".data]

/-- The virtual-IP line (`sparx.py:425`). -/
def vipLine (vip : Str) : Str :=
  "                - virtualIPs: [\"".data ++ vip ++ "\"]".data

/-- The auth-token line (`sparx.py:426`). -/
def authLine (ap : Str) : Str := "                  authPass: ".data ++ ap

/-- The virtual-router line (`sparx.py:427`). -/
def routerLine : Str := "                  virtualRouterID: 78".data

/-- Fixed tail of the config after the auth line (`sparx.py:427-430`). -/
def k0sctlTail : List Str :=
  [routerLine,
   "          nodeLocalLoadBalancing:".data,
   "            enabled: true".data,
   "            type: EnvoyProxy".data]

/-- The whole `k0sctl/k0sctl.yaml` document written by
`generate_k0sctl_config` (`sparx.py:380-430`), one entry per written line. -/
def renderK0sctl (hosts : List Host) (username vip sshKey ap : Str) : List Str :=
  k0sctlHeader ++ (hosts.map (hostBlock username sshKey)).flatten ++ k0sctlMid
    ++ [vipLine vip, authLine ap] ++ k0sctlTail

/-- The `auth_pass` part of `load_k0sctl_config` (`sparx.py:846-878`): a
missing file yields no value. -/
def loadConfigAuth (file : Option (List Str)) : Option Str :=
  match file with
  | none => none
  | some lines => loadAuthPass lines

/-- Token selection of `generate_k0sctl_config` (`sparx.py:360-374`): a
token found in the existing file wins; otherwise a present and non-falsy
`self.auth_pass` attribute is kept; otherwise a fresh token is drawn. -/
def chooseAuthPass (file : Option (List Str)) (attr : Option Str) (fresh : Str) : Str :=
  match loadConfigAuth file with
  | some a => a
  | none =>
    match attr with
    | some a => if a = [] then fresh else a
    | none => fresh

/-- Model of `generate_k0sctl_config` (`sparx.py:352-432`): a no-op on an empty host
list, otherwise it fixes the token and overwrites the config file. -/
def generate_k0sctl_config (env : GenEnv) (s : MState) : MState :=
  if s.hosts = [] then s
  else
    let ap := chooseAuthPass s.k0sctlFile s.auth_pass env.fresh
    { s with
      auth_pass := some ap,
      k0sctlFile := some (renderK0sctl s.hosts s.username s.virtual_ip env.sshKey ap) }

/-- Model of `save_hosts` (`sparx.py:309-320`): rewrite the inventory file from the
live list, then regenerate the structured config. -/
def save_hosts (env : GenEnv) (s : MState) : MState :=
  generate_k0sctl_config env { s with inventoryFile := some (renderInventory s.hosts) }

/-! ### Inventory operations -/

/-- IP resolution attempted while adding a host (`sparx.py:509-521`):
IP-shaped names are kept, otherwise `socket.gethostbyname` is consulted
(modelled by the `resolver` parameter) and the name itself is the fallback
when resolution fails. -/
def resolveIp (resolver : Str → Option Str) (nm : Str) : Str :=
  if isIpShape nm then nm
  else
    match resolver nm with
    | some ip => ip
    | none => nm

/-- The `Host` appended for one surviving name (`sparx.py:523`), with the
dataclass defaults of `sparx.py:33-40`. -/
def mkNewHost (resolver : Str → Option Str) (nm : Str) : Host :=
  { name := nm, enabled := true, connection_status := none,
    role := "both".data, ip_address := resolveIp resolver nm }

/-- The add-button branch of `HostManager.on_button_pressed`
(`sparx.py:468-527`): reject empty or invalid input, expand, reject an empty
expansion, drop case-insensitive duplicates (rejecting outright when every
expanded name is a duplicate), then append the survivors and persist. -/
def addOp (resolver : Str → Option Str) (env : GenEnv) (s : MState) (input : Str) : MState :=
  if input = [] then s
  else if validate_hostname input = false then s
  else if expand_host_pattern input = [] then s
  else if (expand_host_pattern input).filter
        (fun nm => decide (lowerStr nm ∈ s.hosts.map (fun h => lowerStr h.name))) ≠ []
      ∧ ((expand_host_pattern input).filter
          (fun nm => decide (lowerStr nm ∈ s.hosts.map (fun h => lowerStr h.name)))).length
        = (expand_host_pattern input).length then s
  else
    save_hosts env
      { s with
        hosts := s.hosts ++
          ((expand_host_pattern input).filter
            (fun nm => !decide (lowerStr nm ∈ s.hosts.map (fun h => lowerStr h.name)))).map
            (mkNewHost resolver) }

/-- Model of `SparxApp.action_remove_host` (`sparx.py:1070-1078`): with a valid
selection, delete the row, clear the selection and persist; otherwise do
nothing. -/
def action_remove_host (env : GenEnv) (s : MState) (sel : Option Nat) : MState × Option Nat :=
  match sel with
  | none => (s, none)
  | some i =>
    if i < s.hosts.length then
      (save_hosts env { s with hosts := s.hosts.eraseIdx i }, none)
    else (s, some i)

/-- Model of `SparxApp.action_toggle_host` (`sparx.py:1080-1091`): flip the enabled
flag of a validly selected host and persist. -/
def action_toggle_host (env : GenEnv) (s : MState) (sel : Option Nat) : MState :=
  match sel with
  | none => s
  | some i =>
    match s.hosts[i]? with
    | some h =>
      save_hosts env { s with hosts := s.hosts.set i { h with enabled := !h.enabled } }
    | none => s

/-- Model of `HostManager.action_toggle_role` (`sparx.py:799-816`): cycle the role of
a validly selected host and persist. -/
def action_toggle_role (env : GenEnv) (s : MState) (sel : Option Nat) : MState :=
  match sel with
  | none => s
  | some i =>
    match s.hosts[i]? with
    | some h =>
      save_hosts env { s with hosts := s.hosts.set i { h with role := cycleRole h.role } }
    | none => s

/-- The store-side merge of one probe result,
`HostManager._update_host_status` (`sparx.py:770-775`): re-validate the
index against the current length, then overwrite only that host's
connection status; an out-of-range index changes nothing. -/
def updateHostStatus (hosts : List Host) (idx : Nat) (st : Option Str) : List Host :=
  match hosts[idx]? with
  | some h => hosts.set idx { h with connection_status := st }
  | none => hosts

/-! ### Navigation (`SparxApp.action_move_up` / `action_move_down`,
`sparx.py:1098-1196`) -/

/-- The focusable regions the two arrow-key actions route between. -/
inductive Focus where
  | username
  | table
  | hostInput
  | addBtn
  | vipInput
  | continueBtn
deriving DecidableEq

/-- Focus region plus the manager's `selected_index` sub-state. -/
structure NavState where
  focus : Focus
  sel : Option Nat
deriving DecidableEq

/-- Model of `SparxApp.action_move_up` (`sparx.py:1098-1146`) as a function of the
store length; the `fallback` parameter stands for the trailing
`self.screen.focus_previous()` default navigation. -/
def action_move_up (n : Nat) (st : NavState) (fallback : Focus → Focus) : NavState :=
  match st.focus with
  | Focus.table =>
    if n = 0 then { st with focus := Focus.username }
    else
      match st.sel with
      | none => { st with focus := Focus.username }
      | some i =>
        if i = 0 then { st with focus := Focus.username }
        else { focus := Focus.table, sel := some ((i - 1) % n) }
  | Focus.hostInput =>
    { focus := Focus.table, sel := if 0 < n then some (n - 1) else st.sel }
  | Focus.addBtn => { st with focus := Focus.hostInput }
  | Focus.continueBtn => { st with focus := Focus.addBtn }
  | f => { st with focus := fallback f }

/-- Model of `SparxApp.action_move_down` (`sparx.py:1148-1196`); note that the
username branch calls `table.focus()` unconditionally and only the row
selection is guarded by a non-empty store. -/
def action_move_down (n : Nat) (st : NavState) (fallback : Focus → Focus) : NavState :=
  match st.focus with
  | Focus.username =>
    { focus := Focus.table, sel := if 0 < n then some 0 else st.sel }
  | Focus.table =>
    if n = 0 then { st with focus := Focus.hostInput }
    else
      match st.sel with
      | none => { st with focus := Focus.hostInput }
      | some i =>
        if i = n - 1 then { st with focus := Focus.hostInput }
        else { focus := Focus.table, sel := some ((i + 1) % n) }
  | Focus.hostInput => { st with focus := Focus.addBtn }
  | Focus.addBtn => { st with focus := Focus.continueBtn }
  | f => { st with focus := fallback f }

/-! ### Specification-level predicates and concrete fixtures -/

/-- Cleanliness of an auth token as it appears on its config line: nonempty,
no leading or trailing Python whitespace, and the marker `authPass:` does not
occur in the text following the separating space.  The tokens the program
produces (eight hex digits from `secrets.token_hex(4)`) satisfy this. -/
abbrev apClean (ap : Str) : Prop :=
  ap ≠ [] ∧ lstrip ap = ap ∧ rstrip ap = ap ∧ splitFirst authMarker (' ' :: ap) = none

/-- After a persisted mutation from state `s` to state `t`: the plain
inventory file matches the live list, and the structured config matches the
live list whenever the list is nonempty, while an emptied list leaves the
config file exactly as it was. -/
abbrev SyncedAfter (env : GenEnv) (s t : MState) : Prop :=
  t.inventoryFile = some (renderInventory t.hosts)
    ∧ (t.hosts ≠ [] → t.k0sctlFile
        = some (renderK0sctl t.hosts t.username t.virtual_ip env.sshKey
            (chooseAuthPass s.k0sctlFile s.auth_pass env.fresh)))
    ∧ (t.hosts = [] → t.k0sctlFile = s.k0sctlFile)

/-- A fixture environment: detected key path and the token the random source
would produce. -/
def env0 : GenEnv := { sshKey := "~/.ssh/id_ed25519".data, fresh := "a1b2c3d4".data }

/-- A second fixture environment with a different fresh token, to observe
that a second generation ignores its random source. -/
def env1 : GenEnv := { sshKey := "~/.ssh/id_ed25519".data, fresh := "ffffffff".data }

/-- A fixture state with no hosts and no files on disk. -/
def emptyS : MState :=
  { hosts := [], username := "ben".data, virtual_ip := "192.168.122.200/24".data,
    auth_pass := none, inventoryFile := none, k0sctlFile := none }

/-- A resolver in whose environment every DNS lookup fails. -/
def resolverNone : Str → Option Str := fun _ => none

/-- A resolver in whose environment every lookup returns `10.0.0.1`. -/
def resolver10 : Str → Option Str := fun _ => some "10.0.0.1".data

/-- A fixture state holding one host, with a pre-existing structured config
file whose content does not correspond to any render of the live list. -/
def oneHostS : MState :=
  { hosts := [{ name := "a.com".data, ip_address := "a.com".data }],
    username := "ben".data, virtual_ip := "vip".data,
    auth_pass := none, inventoryFile := none, k0sctlFile := some ["stale".data] }

/-! ## Lemmas about the pattern machinery -/

/-- A run of characters satisfying `p` followed by a character refuting `p`
is exactly what `takeWhile` collects. -/
theorem takeWhile_middle (p : Char → Bool) (m : Str) (x : Char) (r : Str)
    (hm : ∀ c ∈ m, p c = true) (hx : p x = false) :
    (m ++ x :: r).takeWhile p = m := by
  induction m with
  | nil => simp [List.takeWhile_cons, hx]
  | cons c cs ih =>
    have hc : p c = true := hm c (by simp)
    simp only [List.cons_append, List.takeWhile_cons, hc]
    simp only [if_true]
    rw [ih (fun d hd => hm d (by simp [hd]))]

/-- Dropping the first block of an append leaves the rest. -/
theorem drop_middle (m : Str) (r : Str) : (m ++ r).drop m.length = r := by
  simp [List.drop_left]

/-- Without an opening bracket there is no dash-range match. -/
theorem searchDash_eq_none (l : Str) (h : '[' ∉ l) : searchDash l = none := by
  induction l with
  | nil => rfl
  | cons c cs ih =>
    have hc : c ≠ '[' := fun e => h (e ▸ List.mem_cons_self c cs)
    have hcs : '[' ∉ cs := fun e => h (List.mem_cons_of_mem c e)
    simp [searchDash, ih hcs, hc]

/-- On a well-formed bracket interior the dash parser returns its parts. -/
theorem parseBracketDash_exact (m n suf : Str)
    (hm : m ≠ []) (hmd : ∀ c ∈ m, c.isDigit = true)
    (hn : n ≠ []) (hnd : ∀ c ∈ n, c.isDigit = true) :
    parseBracketDash (m ++ '-' :: (n ++ ']' :: suf)) = some (m, n, suf) := by
  have hm2 : m.isEmpty = false := by
    cases m with
    | nil => exact absurd rfl hm
    | cons a b => rfl
  have hn2 : n.isEmpty = false := by
    cases n with
    | nil => exact absurd rfl hn
    | cons a b => rfl
  unfold parseBracketDash
  simp only [takeWhile_middle Char.isDigit m '-' (n ++ ']' :: suf) hmd (by decide),
    drop_middle m ('-' :: (n ++ ']' :: suf)), hm2, Bool.false_eq_true, if_false,
    takeWhile_middle Char.isDigit n ']' suf hnd (by decide),
    drop_middle n (']' :: suf), hn2]

/-- The bracket interior of a well-formed dash range contains no opening
bracket. -/
theorem notMem_tail (m n suf : Str)
    (hmd : ∀ c ∈ m, c.isDigit = true) (hnd : ∀ c ∈ n, c.isDigit = true)
    (hsuf : '[' ∉ suf) : '[' ∉ m ++ '-' :: (n ++ ']' :: suf) := by
  intro hmem
  rcases List.mem_append.1 hmem with h | h
  · have := hmd _ h; simp at this
  · rcases List.mem_cons.1 h with h | h
    · exact absurd h.symm (by decide)
    · rcases List.mem_append.1 h with h | h
      · have := hnd _ h; simp at this
      · rcases List.mem_cons.1 h with h | h
        · exact absurd h.symm (by decide)
        · exact hsuf h

/-- On a string of the shape `pre[m-n]suf` with no bracket in `suf`, the
dash-range search extracts exactly the four groups. -/
theorem searchDash_exact (pre m n suf : Str)
    (hm : m ≠ []) (hmd : ∀ c ∈ m, c.isDigit = true)
    (hn : n ≠ []) (hnd : ∀ c ∈ n, c.isDigit = true)
    (hsuf : '[' ∉ suf) :
    searchDash (pre ++ '[' :: (m ++ '-' :: (n ++ ']' :: suf))) = some (pre, m, n, suf) := by
  induction pre with
  | nil =>
    have h0 : searchDash (m ++ '-' :: (n ++ ']' :: suf)) = none :=
      searchDash_eq_none _ (notMem_tail m n suf hmd hnd hsuf)
    simp [searchDash, h0, parseBracketDash_exact m n suf hm hmd hn hnd]
  | cons c cs ih =>
    simp [searchDash, ih]

/-- The fuel-driven renderer never erases a nonempty accumulator. -/
theorem natDigitsAux_ne_nil : ∀ (fuel n : Nat) (acc : Str), acc ≠ [] →
    natDigitsAux fuel n acc ≠ [] := by
  intro fuel
  induction fuel with
  | zero => intro n acc h; exact h
  | succ f ih =>
    intro n acc h
    unfold natDigitsAux
    by_cases hlt : n < 10
    · simp [hlt]
    · simp only [hlt, if_false]
      exact ih (n / 10) _ (by simp)

/-- A decimal rendering has at least one digit. -/
theorem natDigits_ne_nil (n : Nat) : natDigits n ≠ [] := by
  unfold natDigits natDigitsAux
  by_cases hlt : n < 10
  · simp [hlt]
  · simp only [hlt, if_false]
    exact natDigitsAux_ne_nil n (n / 10) _ (by simp)

/-- Padding a nonempty numeral to width one changes nothing. -/
theorem zfill_one (l : Str) (h : l ≠ []) : zfill 1 l = l := by
  have : 1 - l.length = 0 := by
    have := List.length_pos.2 h
    omega
  simp [zfill, this]

/-- When the dash-range search succeeds, expansion takes the corresponding
branch of the source. -/
theorem expand_eq_dash_branch (pat : Str) (pre m n suf : Str)
    (hbr : '[' ∈ pat ∧ ']' ∈ pat)
    (hps : searchDash pat = some (pre, m, n, suf)) :
    expand_host_pattern pat =
      if m.head? = some '0' ∧ 1 < m.length then
        (List.range (digitsToNat n + 1 - digitsToNat m)).map
          (fun k => pre ++ zfill m.length (natDigits (digitsToNat m + k)) ++ suf)
      else
        (List.range (digitsToNat n + 1 - digitsToNat m)).map
          (fun k => pre ++ natDigits (digitsToNat m + k) ++ suf) := by
  unfold expand_host_pattern
  rw [if_neg (not_not_intro hbr), hps]

/-- Expansion of a well-formed dash range, in the form of the specification:
the suffix numeral of element `k` has value `m + k`, zero-padded to the
width of `m` exactly when `m` starts with a zero. -/
theorem expand_dash (pre m n suf : Str)
    (hm : m ≠ []) (hmd : ∀ c ∈ m, c.isDigit = true)
    (hn : n ≠ []) (hnd : ∀ c ∈ n, c.isDigit = true)
    (hsuf : '[' ∉ suf) :
    expand_host_pattern (pre ++ '[' :: (m ++ '-' :: (n ++ ']' :: suf)))
      = (List.range (digitsToNat n + 1 - digitsToNat m)).map
          (fun k =>
            if m.head? = some '0' then
              pre ++ zfill m.length (natDigits (digitsToNat m + k)) ++ suf
            else pre ++ natDigits (digitsToNat m + k) ++ suf) := by
  have hbr1 : '[' ∈ pre ++ '[' :: (m ++ '-' :: (n ++ ']' :: suf)) := by
    exact List.mem_append_right _ (List.mem_cons_self _ _)
  have hbr2 : ']' ∈ pre ++ '[' :: (m ++ '-' :: (n ++ ']' :: suf)) := by
    refine List.mem_append_right _ (List.mem_cons_of_mem _ ?_)
    refine List.mem_append_right _ (List.mem_cons_of_mem _ ?_)
    exact List.mem_append_right _ (List.mem_cons_self _ _)
  rw [expand_eq_dash_branch _ pre m n suf ⟨hbr1, hbr2⟩
    (searchDash_exact pre m n suf hm hmd hn hnd hsuf)]
  by_cases h0 : m.head? = some '0'
  · by_cases h1 : 1 < m.length
    · rw [if_pos ⟨h0, h1⟩]
      refine List.map_congr_left ?_
      intro k hk
      rw [if_pos h0]
    · have hm1 : m.length = 1 := by
        have := List.length_pos.2 hm
        omega
      have hm0 : m = ['0'] := by
        cases m with
        | nil => exact absurd rfl hm
        | cons c cs =>
          simp at h0 hm1
          subst h0
          simp [hm1]
      subst hm0
      rw [if_neg (by simp : ¬((['0'] : Str).head? = some '0' ∧ 1 < (['0'] : Str).length))]
      refine List.map_congr_left ?_
      intro k hk
      rw [if_pos h0]
      rw [show ((['0'] : Str)).length = 1 from rfl, zfill_one _ (natDigits_ne_nil _)]
  · rw [if_neg (fun h => h0 h.1)]
    refine List.map_congr_left ?_
    intro k hk
    rw [if_neg h0]

/-- The anchored dash regex of the validator accepts every well-formed dash
range regardless of the numeric order of its bounds. -/
theorem matchPattern1_exact (pre m n suf : Str)
    (hpre : ∀ c ∈ pre, isHostPatChar c = true)
    (hsuf : ∀ c ∈ suf, isHostPatChar c = true)
    (hm : m ≠ []) (hmd : ∀ c ∈ m, c.isDigit = true)
    (hn : n ≠ []) (hnd : ∀ c ∈ n, c.isDigit = true) :
    matchPattern1 (pre ++ '[' :: (m ++ '-' :: (n ++ ']' :: suf))) = true := by
  have hm2 : m.isEmpty = false := by
    cases m with
    | nil => exact absurd rfl hm
    | cons a b => rfl
  have hn2 : n.isEmpty = false := by
    cases n with
    | nil => exact absurd rfl hn
    | cons a b => rfl
  unfold matchPattern1
  simp only [takeWhile_middle isHostPatChar pre '[' (m ++ '-' :: (n ++ ']' :: suf)) hpre
      (by decide),
    drop_middle pre ('[' :: (m ++ '-' :: (n ++ ']' :: suf))),
    takeWhile_middle Char.isDigit m '-' (n ++ ']' :: suf) hmd (by decide),
    drop_middle m ('-' :: (n ++ ']' :: suf)), hm2, Bool.false_eq_true, if_false,
    takeWhile_middle Char.isDigit n ']' suf hnd (by decide),
    drop_middle n (']' :: suf), hn2]
  exact List.all_eq_true.2 hsuf

/-- The validator accepts every well-formed dash range over its character
class, with no comparison between the bounds. -/
theorem validate_dash_true (pre m n suf : Str)
    (hpre : ∀ c ∈ pre, isHostPatChar c = true)
    (hsuf : ∀ c ∈ suf, isHostPatChar c = true)
    (hm : m ≠ []) (hmd : ∀ c ∈ m, c.isDigit = true)
    (hn : n ≠ []) (hnd : ∀ c ∈ n, c.isDigit = true) :
    validate_hostname (pre ++ '[' :: (m ++ '-' :: (n ++ ']' :: suf))) = true := by
  have hne : pre ++ '[' :: (m ++ '-' :: (n ++ ']' :: suf)) ≠ [] := by
    simp
  have hbr1 : '[' ∈ pre ++ '[' :: (m ++ '-' :: (n ++ ']' :: suf)) :=
    List.mem_append_right _ (List.mem_cons_self _ _)
  have hbr2 : ']' ∈ pre ++ '[' :: (m ++ '-' :: (n ++ ']' :: suf)) := by
    refine List.mem_append_right _ (List.mem_cons_of_mem _ ?_)
    refine List.mem_append_right _ (List.mem_cons_of_mem _ ?_)
    exact List.mem_append_right _ (List.mem_cons_self _ _)
  have hbc : bracketCheck (pre ++ '[' :: (m ++ '-' :: (n ++ ']' :: suf))) = true := by
    unfold bracketCheck
    rw [if_pos (matchPattern1_exact pre m n suf hpre hsuf hm hmd hn hnd)]
  unfold validate_hostname
  rw [if_neg hne, if_pos ⟨⟨hbr1, hbr2⟩, hbc⟩]

/-- A dash range whose start exceeds its end expands to the empty list. -/
theorem expand_dash_empty (pre m n suf : Str)
    (hm : m ≠ []) (hmd : ∀ c ∈ m, c.isDigit = true)
    (hn : n ≠ []) (hnd : ∀ c ∈ n, c.isDigit = true)
    (hsuf : '[' ∉ suf)
    (hlt : digitsToNat n < digitsToNat m) :
    expand_host_pattern (pre ++ '[' :: (m ++ '-' :: (n ++ ']' :: suf))) = [] := by
  have hbr1 : '[' ∈ pre ++ '[' :: (m ++ '-' :: (n ++ ']' :: suf)) :=
    List.mem_append_right _ (List.mem_cons_self _ _)
  have hbr2 : ']' ∈ pre ++ '[' :: (m ++ '-' :: (n ++ ']' :: suf)) := by
    refine List.mem_append_right _ (List.mem_cons_of_mem _ ?_)
    refine List.mem_append_right _ (List.mem_cons_of_mem _ ?_)
    exact List.mem_append_right _ (List.mem_cons_self _ _)
  rw [expand_eq_dash_branch _ pre m n suf ⟨hbr1, hbr2⟩
    (searchDash_exact pre m n suf hm hmd hn hnd hsuf)]
  have hz : digitsToNat n + 1 - digitsToNat m = 0 := by omega
  rw [hz]
  split <;> rfl

/-- Bracket-free input expands to itself. -/
theorem expand_singleton (v : Str) (h : ¬('[' ∈ v ∧ ']' ∈ v)) :
    expand_host_pattern v = [v] := by
  unfold expand_host_pattern
  rw [if_pos h]

/-! ## Lemmas about the auth-token roundtrip and config generation -/

/-- Left-stripping the rendered auth line stops at the marker. -/
theorem lstrip_authLine (ap : Str) : lstrip (authLine ap) = "authPass: ".data ++ ap := rfl

/-- The first split of the stripped auth line lands right after the
marker. -/
theorem splitFirst_marker (ap : Str) :
    splitFirst authMarker ("authPass: ".data ++ ap) = some ([], ' ' :: ap) := rfl

/-- Right-stripping ignores everything left of a right-stripped nonempty
tail. -/
theorem rstrip_append (x l : Str) (hl : rstrip l = l) (hne : l ≠ []) :
    rstrip (x ++ l) = x ++ l := by
  have hrev : l.reverse.dropWhile pyIsSpace = l.reverse := by
    have := congrArg List.reverse hl
    simpa [rstrip] using this
  obtain ⟨c, t, hct⟩ : ∃ c t, l.reverse = c :: t := by
    cases hr : l.reverse with
    | nil => exact absurd (by simpa using congrArg List.reverse hr) hne
    | cons c t => exact ⟨c, t, rfl⟩
  have hc : pyIsSpace c = false := by
    by_contra hcon
    have hc2 : pyIsSpace c = true := by
      cases h2 : pyIsSpace c with
      | false => exact absurd h2 hcon
      | true => rfl
    rw [hct, List.dropWhile_cons_of_pos hc2] at hrev
    have := congrArg List.length hrev
    have hlen : (t.dropWhile pyIsSpace).length ≤ t.length :=
      (List.dropWhile_sublist pyIsSpace).length_le
    simp at this
    omega
  have : (x ++ l).reverse.dropWhile pyIsSpace = (x ++ l).reverse := by
    rw [List.reverse_append, hct, List.cons_append, List.dropWhile_cons_of_neg (by simp [hc])]
  simpa [rstrip] using congrArg List.reverse this

/-- Left-stripping a single leading space of a left-stripped string. -/
theorem lstrip_idem_cons_space (ap : Str) (h : lstrip ap = ap) : lstrip (' ' :: ap) = ap := by
  rw [lstrip, List.dropWhile_cons_of_pos (by decide)]
  exact h

/-- The scan of `load_k0sctl_config` recovers a clean token from the line
that `generate_k0sctl_config` wrote for it. -/
theorem extractAuthPass_authLine (ap : Str) (h : apClean ap) :
    extractAuthPass (authLine ap) = some ap := by
  obtain ⟨hne, hls, hrs, hsp⟩ := h
  have hstrip : pyStrip (authLine ap) = "authPass: ".data ++ ap := by
    rw [pyStrip, lstrip_authLine]
    exact rstrip_append _ _ hrs hne
  have hseg : segAfterFirst authMarker (' ' :: ap) = ' ' :: ap := by
    unfold segAfterFirst
    rw [hsp]
  have hps2 : pyStrip (' ' :: ap) = ap := by
    rw [pyStrip, lstrip_idem_cons_space ap hls, hrs]
  unfold extractAuthPass
  rw [hstrip, splitFirst_marker]
  show some (pyStrip (segAfterFirst authMarker (' ' :: ap))) = some ap
  rw [hseg, hps2]

/-- Scanning a freshly rendered config recovers its clean token: the auth
line is the last line containing the marker, so it wins the scan whatever
the host fields contain. -/
theorem loadAuthPass_render (hosts : List Host) (username vip key ap : Str)
    (h : apClean ap) :
    loadAuthPass (renderK0sctl hosts username vip key ap) = some ap := by
  have hA : renderK0sctl hosts username vip key ap
      = ((k0sctlHeader ++ (hosts.map (hostBlock username key)).flatten ++ k0sctlMid)
          ++ [vipLine vip]) ++ (authLine ap :: k0sctlTail) := by
    simp [renderK0sctl, List.append_assoc]
  rw [hA]
  unfold loadAuthPass
  rw [List.foldl_append]
  have h1 : extractAuthPass routerLine = none := by decide
  have h2 : extractAuthPass "          nodeLocalLoadBalancing:".data = none := by decide
  have h3 : extractAuthPass "            enabled: true".data = none := by decide
  have h4 : extractAuthPass "            type: EnvoyProxy".data = none := by decide
  simp only [k0sctlTail, List.foldl_cons, List.foldl_nil,
    extractAuthPass_authLine ap h, h1, h2, h3, h4]

/-- On a nonempty host list, one generation step in explicit form. -/
theorem generate_unfold (env : GenEnv) (s : MState) (hne : s.hosts ≠ []) :
    generate_k0sctl_config env s =
      { s with
        auth_pass := some (chooseAuthPass s.k0sctlFile s.auth_pass env.fresh),
        k0sctlFile := some (renderK0sctl s.hosts s.username s.virtual_ip env.sshKey
          (chooseAuthPass s.k0sctlFile s.auth_pass env.fresh)) } := by
  unfold generate_k0sctl_config
  rw [if_neg hne]

/-- On a nonempty host list, persisting rewrites both files in explicit
form. -/
theorem save_hosts_eq (env : GenEnv) (s : MState) (h : s.hosts ≠ []) :
    save_hosts env s =
      { s with
        inventoryFile := some (renderInventory s.hosts),
        auth_pass := some (chooseAuthPass s.k0sctlFile s.auth_pass env.fresh),
        k0sctlFile := some (renderK0sctl s.hosts s.username s.virtual_ip env.sshKey
          (chooseAuthPass s.k0sctlFile s.auth_pass env.fresh)) } := by
  unfold save_hosts
  rw [generate_unfold env _ (by simpa using h)]

/-- On an empty host list, persisting rewrites only the inventory file. -/
theorem save_hosts_eq_nil (env : GenEnv) (s : MState) (h : s.hosts = []) :
    save_hosts env s = { s with inventoryFile := some (renderInventory s.hosts) } := by
  unfold save_hosts generate_k0sctl_config
  rw [if_pos (by simpa using h)]

/-- Persisting never changes the live host list. -/
theorem save_hosts_hosts (env : GenEnv) (t : MState) : (save_hosts env t).hosts = t.hosts := by
  by_cases h : t.hosts = []
  · rw [save_hosts_eq_nil env t h]
  · rw [save_hosts_eq env t h]

/-- Any persisted mutation from `s` to a state with host list `hs2` lands in
the synchronisation relation. -/
theorem synced_save (env : GenEnv) (s : MState) (hs2 : List Host) :
    SyncedAfter env s (save_hosts env { s with hosts := hs2 }) := by
  by_cases h : hs2 = []
  · subst h
    rw [save_hosts_eq_nil env _ rfl]
    exact ⟨rfl, fun hne => absurd rfl hne, fun _ => rfl⟩
  · rw [save_hosts_eq env _ (by simpa using h)]
    exact ⟨rfl, fun _ => rfl, fun hnil => absurd hnil h⟩

/-- An add whose expansion contains at least one genuinely new name takes
the append-and-persist branch. -/
theorem addOp_success (resolver : Str → Option Str) (env : GenEnv) (s : MState) (input : Str)
    (hin : input ≠ []) (hval : validate_hostname input = true)
    (hex : ∃ nm ∈ expand_host_pattern input,
        lowerStr nm ∉ s.hosts.map (fun h => lowerStr h.name)) :
    addOp resolver env s input =
      save_hosts env
        { s with
          hosts := s.hosts ++
            ((expand_host_pattern input).filter
              (fun nm => !decide (lowerStr nm ∈ s.hosts.map (fun h => lowerStr h.name)))).map
              (mkNewHost resolver) } := by
  obtain ⟨nm, hnm, hmem⟩ := hex
  have hne : expand_host_pattern input ≠ [] := by
    intro h
    rw [h] at hnm
    exact absurd hnm (List.not_mem_nil nm)
  unfold addOp
  rw [if_neg hin, if_neg (by rw [hval]; exact fun h => nomatch h), if_neg hne, if_neg]
  intro hcon
  have hd : ((expand_host_pattern input).filter
      (fun nm2 => decide (lowerStr nm2 ∈ s.hosts.map (fun h => lowerStr h.name))))
      = expand_host_pattern input :=
    (List.filter_sublist _).eq_of_length hcon.2
  have := (List.filter_eq_self.mp hd) nm hnm
  exact hmem (of_decide_eq_true this)

/-- An add whose expansion consists entirely of already-present names (in
lower case) leaves the state untouched, whatever branch rejects it. -/
theorem addOp_all_dup (resolver : Str → Option Str) (env : GenEnv) (s : MState) (input : Str)
    (hall : ∀ nm ∈ expand_host_pattern input,
        lowerStr nm ∈ s.hosts.map (fun h => lowerStr h.name)) :
    addOp resolver env s input = s := by
  unfold addOp
  by_cases h1 : input = []
  · rw [if_pos h1]
  · rw [if_neg h1]
    by_cases h2 : validate_hostname input = false
    · rw [if_pos h2]
    · rw [if_neg h2]
      by_cases h3 : expand_host_pattern input = []
      · rw [if_pos h3]
      · rw [if_neg h3]
        have hd : ((expand_host_pattern input).filter
            (fun nm => decide (lowerStr nm ∈ s.hosts.map (fun h => lowerStr h.name))))
            = expand_host_pattern input := by
          refine List.filter_eq_self.mpr ?_
          intro a ha
          simpa using hall a ha
        rw [if_pos ⟨by rw [hd]; exact h3, by rw [hd]⟩]

/-! ## Claim theorems -/

/-- Claim C1: with an unchanged host store and unchanged settings (same
detected SSH key, any second random token), a second config generation
produces a byte-identical file and the same auth token as the first; and
whenever the previously persisted config already carries a token, the first
generation adopts that token instead of regenerating one.  The cleanliness
hypothesis states that the chosen token is nonempty, free of surrounding
whitespace and does not itself contain the `authPass:` marker — true of
every token the program can produce. -/
theorem claim_C1 (e1 e2 : GenEnv) (s : MState)
    (hkey : e2.sshKey = e1.sshKey)
    (hne : s.hosts ≠ [])
    (hclean : apClean (chooseAuthPass s.k0sctlFile s.auth_pass e1.fresh)) :
    (generate_k0sctl_config e2 (generate_k0sctl_config e1 s)).k0sctlFile
        = (generate_k0sctl_config e1 s).k0sctlFile
      ∧ (generate_k0sctl_config e2 (generate_k0sctl_config e1 s)).auth_pass
        = (generate_k0sctl_config e1 s).auth_pass
      ∧ (∀ a, loadConfigAuth s.k0sctlFile = some a →
          (generate_k0sctl_config e1 s).auth_pass = some a) := by
  have h1 := generate_unfold e1 s hne
  have hs1hosts : (generate_k0sctl_config e1 s).hosts = s.hosts := by rw [h1]
  have hne1 : (generate_k0sctl_config e1 s).hosts ≠ [] := by rw [hs1hosts]; exact hne
  have h2 := generate_unfold e2 _ hne1
  have hload : loadConfigAuth (generate_k0sctl_config e1 s).k0sctlFile
      = some (chooseAuthPass s.k0sctlFile s.auth_pass e1.fresh) := by
    rw [h1]
    exact loadAuthPass_render _ _ _ _ _ hclean
  have hchoose : chooseAuthPass (generate_k0sctl_config e1 s).k0sctlFile
      (generate_k0sctl_config e1 s).auth_pass e2.fresh
      = chooseAuthPass s.k0sctlFile s.auth_pass e1.fresh := by
    unfold chooseAuthPass
    rw [hload]
    rfl
  refine ⟨?_, ?_, ?_⟩
  · rw [h2, hchoose, hs1hosts]
    rw [show (generate_k0sctl_config e1 s).username = s.username from by rw [h1]]
    rw [show (generate_k0sctl_config e1 s).virtual_ip = s.virtual_ip from by rw [h1]]
    rw [hkey]
    rw [h1]
  · rw [h2, hchoose]
    rw [h1]
  · intro a ha
    rw [h1]
    unfold chooseAuthPass
    rw [ha]

/-- Claim C1 witness at a concrete state and environments. -/
theorem claim_C1_witness :
    (env1.sshKey = env0.sshKey ∧ oneHostS.hosts ≠ []
        ∧ apClean (chooseAuthPass oneHostS.k0sctlFile oneHostS.auth_pass env0.fresh))
    ∧ ((generate_k0sctl_config env1 (generate_k0sctl_config env0 oneHostS)).k0sctlFile
          = (generate_k0sctl_config env0 oneHostS).k0sctlFile
        ∧ (generate_k0sctl_config env1 (generate_k0sctl_config env0 oneHostS)).auth_pass
          = (generate_k0sctl_config env0 oneHostS).auth_pass
        ∧ (∀ a, loadConfigAuth oneHostS.k0sctlFile = some a →
            (generate_k0sctl_config env0 oneHostS).auth_pass = some a)) :=
  ⟨⟨by decide, by decide, by decide⟩,
    claim_C1 env0 env1 oneHostS (by decide) (by decide) (by decide)⟩

/-- Claim C2 counterexample: removing the only host is a mutating operation
(the store changes, and the inventory file is rewritten for the new empty
store), yet the structured config file keeps its previous bytes because
`generate_k0sctl_config` returns early on an empty host list. -/
theorem claim_C2_counterexample :
    (action_remove_host env0 oneHostS (some 0)).1.hosts ≠ oneHostS.hosts
    ∧ (action_remove_host env0 oneHostS (some 0)).1.hosts = []
    ∧ (action_remove_host env0 oneHostS (some 0)).1.inventoryFile
        = some (renderInventory [])
    ∧ (action_remove_host env0 oneHostS (some 0)).1.k0sctlFile = oneHostS.k0sctlFile := by
  refine ⟨by decide, by decide, by decide, by decide⟩

/-- Claim C2 as amended: after every mutating inventory operation (toggle,
role cycle, remove with a valid selection, or an add that appends at least
one host) the plain list file is synchronously rewritten from the live
model, and the structured config file is regenerated from the live model
whenever the resulting store is nonempty — but an operation that empties the
store leaves the structured config file untouched. -/
theorem claim_C2_amended :
    (∀ (env : GenEnv) (s : MState) (i : Nat), i < s.hosts.length →
        SyncedAfter env s (action_toggle_host env s (some i)))
    ∧ (∀ (env : GenEnv) (s : MState) (i : Nat), i < s.hosts.length →
        SyncedAfter env s (action_toggle_role env s (some i)))
    ∧ (∀ (env : GenEnv) (s : MState) (i : Nat), i < s.hosts.length →
        SyncedAfter env s (action_remove_host env s (some i)).1)
    ∧ (∀ (resolver : Str → Option Str) (env : GenEnv) (s : MState) (input : Str),
        input ≠ [] → validate_hostname input = true →
        (∃ nm ∈ expand_host_pattern input,
            lowerStr nm ∉ s.hosts.map (fun h => lowerStr h.name)) →
        SyncedAfter env s (addOp resolver env s input)) := by
  refine ⟨?_, ?_, ?_, ?_⟩
  · intro env s i hi
    obtain ⟨h, hh⟩ : ∃ h, s.hosts[i]? = some h := ⟨s.hosts[i], List.getElem?_eq_getElem hi⟩
    simp only [action_toggle_host, hh]
    exact synced_save env s _
  · intro env s i hi
    obtain ⟨h, hh⟩ : ∃ h, s.hosts[i]? = some h := ⟨s.hosts[i], List.getElem?_eq_getElem hi⟩
    simp only [action_toggle_role, hh]
    exact synced_save env s _
  · intro env s i hi
    simp only [action_remove_host, if_pos hi]
    exact synced_save env s _
  · intro resolver env s input hin hval hex
    rw [addOp_success resolver env s input hin hval hex]
    exact synced_save env s _

/-- Claim C2 witness: the amended synchronisation property at a concrete
removal. -/
theorem claim_C2_witness :
    0 < oneHostS.hosts.length
    ∧ SyncedAfter env0 oneHostS (action_remove_host env0 oneHostS (some 0)).1 :=
  ⟨by decide, claim_C2_amended.2.2.1 env0 oneHostS 0 (by decide)⟩

/-- Claim C3: (a) an add whose expansion consists entirely of names already
present (compared case-insensitively) leaves the state unchanged; (b) a
partially-duplicate expansion appends exactly the non-duplicate names;
(c) adding the same bracket-free hostname twice, in any letter case, leaves
the second add a no-op, so the store never grows beyond the first
occurrence. -/
theorem claim_C3 :
    (∀ (resolver : Str → Option Str) (env : GenEnv) (s : MState) (input : Str),
        (∀ nm ∈ expand_host_pattern input,
            lowerStr nm ∈ s.hosts.map (fun h => lowerStr h.name)) →
        addOp resolver env s input = s)
    ∧ (∀ (resolver : Str → Option Str) (env : GenEnv) (s : MState) (input : Str),
        input ≠ [] → validate_hostname input = true →
        (∃ nm ∈ expand_host_pattern input,
            lowerStr nm ∉ s.hosts.map (fun h => lowerStr h.name)) →
        (addOp resolver env s input).hosts = s.hosts ++
          ((expand_host_pattern input).filter
            (fun nm => !decide (lowerStr nm ∈ s.hosts.map (fun h => lowerStr h.name)))).map
            (mkNewHost resolver))
    ∧ (∀ (resolver : Str → Option Str) (env : GenEnv) (s : MState) (nm nm2 : Str),
        nm ≠ [] → validate_hostname nm = true → '[' ∉ nm → '[' ∉ nm2 →
        lowerStr nm2 = lowerStr nm →
        addOp resolver env (addOp resolver env s nm) nm2 = addOp resolver env s nm) := by
  refine ⟨fun r e s i h => addOp_all_dup r e s i h, ?_, ?_⟩
  · intro resolver env s input hin hval hex
    rw [addOp_success resolver env s input hin hval hex, save_hosts_hosts]
  · intro resolver env s nm nm2 hnm hval hbr1 hbr2 hlow
    have hexp1 : expand_host_pattern nm = [nm] :=
      expand_singleton nm (fun hc => hbr1 hc.1)
    have hexp2 : expand_host_pattern nm2 = [nm2] :=
      expand_singleton nm2 (fun hc => hbr2 hc.1)
    by_cases hdup : lowerStr nm ∈ s.hosts.map (fun h => lowerStr h.name)
    · have hs1 : addOp resolver env s nm = s := by
        apply addOp_all_dup
        rw [hexp1]
        intro x hx
        rw [List.mem_singleton.mp hx]
        exact hdup
      rw [hs1]
      apply addOp_all_dup
      rw [hexp2]
      intro x hx
      rw [List.mem_singleton.mp hx, hlow]
      exact hdup
    · have hs1 := addOp_success resolver env s nm hnm hval
        ⟨nm, by rw [hexp1]; exact List.mem_singleton_self nm, hdup⟩
      have hd : decide (lowerStr nm ∈ s.hosts.map (fun h => lowerStr h.name)) = false :=
        decide_eq_false hdup
      have hh : (addOp resolver env s nm).hosts = s.hosts ++ [mkNewHost resolver nm] := by
        rw [hs1, save_hosts_hosts]
        show s.hosts ++ _ = s.hosts ++ [mkNewHost resolver nm]
        rw [hexp1]
        simp only [List.filter_cons, List.filter_nil, hd, Bool.not_false, if_true,
          List.map_cons, List.map_nil]
      apply addOp_all_dup
      rw [hexp2]
      intro x hx
      rw [List.mem_singleton.mp hx, hlow, hh]
      simp [mkNewHost]

/-- Claim C3 witness: an all-duplicate and hence rejected concrete add. -/
theorem claim_C3_witness :
    (∀ nm ∈ expand_host_pattern "a.com".data,
        lowerStr nm ∈ oneHostS.hosts.map (fun h => lowerStr h.name))
    ∧ addOp resolverNone env0 oneHostS "a.com".data = oneHostS :=
  ⟨by decide, claim_C3.1 resolverNone env0 oneHostS "a.com".data (by decide)⟩

/-- Claim C4: for every valid dash range `pre[m-n]suf` with `m ≤ n`, the
expansion is the list of `n - m + 1` hostnames whose numeric suffix runs
from `m` to `n` in steps of one, zero-padded to the width of `m` exactly
when `m` has a leading zero; and the three concrete examples of the
specification hold. -/
theorem claim_C4 :
    (∀ (pre m n suf : Str),
        m ≠ [] → (∀ c ∈ m, c.isDigit = true) → n ≠ [] → (∀ c ∈ n, c.isDigit = true) →
        '[' ∉ suf → digitsToNat m ≤ digitsToNat n →
        expand_host_pattern (pre ++ '[' :: (m ++ '-' :: (n ++ ']' :: suf)))
            = (List.range (digitsToNat n - digitsToNat m + 1)).map
                (fun k =>
                  if m.head? = some '0' then
                    pre ++ zfill m.length (natDigits (digitsToNat m + k)) ++ suf
                  else pre ++ natDigits (digitsToNat m + k) ++ suf)
          ∧ (expand_host_pattern (pre ++ '[' :: (m ++ '-' :: (n ++ ']' :: suf)))).length
            = digitsToNat n - digitsToNat m + 1)
    ∧ expand_host_pattern "host[1-3].com".data
        = ["host1.com".data, "host2.com".data, "host3.com".data]
    ∧ expand_host_pattern "host[01-03].com".data
        = ["host01.com".data, "host02.com".data, "host03.com".data]
    ∧ expand_host_pattern "example.com".data = ["example.com".data] := by
  refine ⟨?_, by decide, by decide, by decide⟩
  intro pre m n suf hm hmd hn hnd hsuf hle
  have heq : digitsToNat n + 1 - digitsToNat m = digitsToNat n - digitsToNat m + 1 := by omega
  have h1 := expand_dash pre m n suf hm hmd hn hnd hsuf
  rw [heq] at h1
  exact ⟨h1, by rw [h1]; simp⟩

/-- Claim C4 witness: the dash-range characterisation applied to the range
from 1 to 3. -/
theorem claim_C4_witness :
    (("1".data : Str) ≠ [] ∧ ("3".data : Str) ≠ []
        ∧ '[' ∉ ".com".data ∧ digitsToNat "1".data ≤ digitsToNat "3".data)
    ∧ (expand_host_pattern
          ("host".data ++ '[' :: ("1".data ++ '-' :: ("3".data ++ ']' :: ".com".data)))).length
        = digitsToNat "3".data - digitsToNat "1".data + 1 :=
  ⟨⟨by decide, by decide, by decide, by decide⟩,
    (claim_C4.1 "host".data "1".data "3".data ".com".data (by decide) (by decide)
      (by decide) (by decide) (by decide) (by decide)).2⟩

/-- Claim C5 counterexample: on the bracketed input `host[3-1].com`, whose
numeric start exceeds its end, expansion does not fail — it returns the
ordinary empty hostname list, which the claim says it never does. -/
theorem claim_C5_counterexample : expand_host_pattern "host[3-1].com".data = [] := by decide

/-- Claim C5 as amended: expansion never signals an error.  Input without
both brackets (including unbalanced brackets) is returned unchanged as a
singleton; bracketed input on which neither range regex matches (for
example non-numeric bounds) is returned unchanged as a singleton; and a
well-formed dash range whose start exceeds its end yields the empty
list. -/
theorem claim_C5_amended :
    (∀ v : Str, ¬('[' ∈ v ∧ ']' ∈ v) → expand_host_pattern v = [v])
    ∧ (∀ v : Str, searchDash v = none → searchColon v = none → expand_host_pattern v = [v])
    ∧ (∀ (pre m n suf : Str),
        m ≠ [] → (∀ c ∈ m, c.isDigit = true) → n ≠ [] → (∀ c ∈ n, c.isDigit = true) →
        '[' ∉ suf → digitsToNat n < digitsToNat m →
        expand_host_pattern (pre ++ '[' :: (m ++ '-' :: (n ++ ']' :: suf))) = []) := by
  refine ⟨fun v h => expand_singleton v h, ?_, ?_⟩
  · intro v hdash hcolon
    by_cases hbr : '[' ∈ v ∧ ']' ∈ v
    · unfold expand_host_pattern
      rw [if_neg (not_not_intro hbr), hdash]
      show (match searchColon v with
        | some (pre, m, n, suf) =>
          (List.range (digitsToNat n + 1 - digitsToNat m)).map
            (fun k => pre ++ zfill m.length (natDigits (digitsToNat m + k)) ++ suf)
        | none => [v]) = [v]
      rw [hcolon]
    · exact expand_singleton v hbr
  · exact fun pre m n suf hm hmd hn hnd hsuf hlt =>
      expand_dash_empty pre m n suf hm hmd hn hnd hsuf hlt

/-- Claim C5 witness: the amended behaviour at concrete inputs of each
kind. -/
theorem claim_C5_witness :
    (¬('[' ∈ "host[".data ∧ ']' ∈ "host[".data)
        ∧ digitsToNat "1".data < digitsToNat "3".data)
    ∧ expand_host_pattern "host[".data = ["host[".data]
    ∧ expand_host_pattern
        ("host".data ++ '[' :: ("3".data ++ '-' :: ("1".data ++ ']' :: ".com".data))) = [] :=
  ⟨⟨by decide, by decide⟩,
    claim_C5_amended.1 "host[".data (by decide),
    claim_C5_amended.2.2 "host".data "3".data "1".data ".com".data (by decide) (by decide)
      (by decide) (by decide) (by decide) (by decide)⟩

/-- Claim C6: the five concrete evaluations of the total validation
predicate stated by the specification. -/
theorem claim_C6 :
    validate_hostname "example.com".data = true
    ∧ validate_hostname "192.168.1.1".data = true
    ∧ validate_hostname "256.256.256.256".data = false
    ∧ validate_hostname "server[1-a].example.com".data = false
    ∧ validate_hostname "".data = false := by
  refine ⟨by decide, by decide, by decide, by decide, by decide⟩

/-- Claim C7 counterexample: in an environment where DNS resolution
succeeds, a surviving add stores the resolved address — not the host's
name — in `ip_address`. -/
theorem claim_C7_counterexample :
    (addOp resolver10 env0 emptyS "n1.example.com".data).hosts.map (fun h => h.ip_address)
      = ["10.0.0.1".data]
    ∧ "10.0.0.1".data ≠ "n1.example.com".data := by
  refine ⟨by decide, by decide⟩

/-- Claim C7 as amended: every host present after an add is either an
original host or a new one with `enabled = true`, `role = both`,
`connection_status` unknown, and `ip_address` equal to the immediate
resolution of its name (the name itself when it is an IP literal or when
resolution fails, the resolved address otherwise); and from the empty store,
adding `n[1-3].example.com` with failing resolution yields exactly the three
expected hosts. -/
theorem claim_C7_amended :
    (∀ (resolver : Str → Option Str) (env : GenEnv) (s : MState) (input : Str) (h : Host),
        h ∈ (addOp resolver env s input).hosts →
        h ∈ s.hosts ∨
          (h.enabled = true ∧ h.role = "both".data ∧ h.connection_status = none
            ∧ h.ip_address = resolveIp resolver h.name))
    ∧ (addOp resolverNone env0 emptyS "n[1-3].example.com".data).hosts =
        [{ name := "n1.example.com".data, enabled := true, connection_status := none,
           role := "both".data, ip_address := "n1.example.com".data },
         { name := "n2.example.com".data, enabled := true, connection_status := none,
           role := "both".data, ip_address := "n2.example.com".data },
         { name := "n3.example.com".data, enabled := true, connection_status := none,
           role := "both".data, ip_address := "n3.example.com".data }] := by
  constructor
  · intro resolver env s input h hmem
    unfold addOp at hmem
    by_cases h1 : input = []
    · rw [if_pos h1] at hmem; exact Or.inl hmem
    · rw [if_neg h1] at hmem
      by_cases h2 : validate_hostname input = false
      · rw [if_pos h2] at hmem; exact Or.inl hmem
      · rw [if_neg h2] at hmem
        by_cases h3 : expand_host_pattern input = []
        · rw [if_pos h3] at hmem; exact Or.inl hmem
        · rw [if_neg h3] at hmem
          by_cases h4 : (expand_host_pattern input).filter
                (fun nm => decide (lowerStr nm ∈ s.hosts.map (fun h => lowerStr h.name))) ≠ []
              ∧ ((expand_host_pattern input).filter
                  (fun nm =>
                    decide (lowerStr nm ∈ s.hosts.map (fun h => lowerStr h.name)))).length
                = (expand_host_pattern input).length
          · rw [if_pos h4] at hmem; exact Or.inl hmem
          · rw [if_neg h4, save_hosts_hosts] at hmem
            rcases List.mem_append.mp hmem with hl | hr
            · exact Or.inl hl
            · obtain ⟨nm, hnm, hmk⟩ := List.mem_map.mp hr
              subst hmk
              exact Or.inr ⟨rfl, rfl, rfl, rfl⟩
  · decide

/-- Claim C7 witness: the membership characterisation at a concrete new
host. -/
theorem claim_C7_witness :
    mkNewHost resolverNone "n1.example.com".data
        ∈ (addOp resolverNone env0 emptyS "n[1-3].example.com".data).hosts
    ∧ (mkNewHost resolverNone "n1.example.com".data ∈ emptyS.hosts
        ∨ ((mkNewHost resolverNone "n1.example.com".data).enabled = true
            ∧ (mkNewHost resolverNone "n1.example.com".data).role = "both".data
            ∧ (mkNewHost resolverNone "n1.example.com".data).connection_status = none
            ∧ (mkNewHost resolverNone "n1.example.com".data).ip_address
              = resolveIp resolverNone (mkNewHost resolverNone "n1.example.com".data).name)) :=
  ⟨by decide,
    claim_C7_amended.1 resolverNone env0 emptyS "n[1-3].example.com".data
      (mkNewHost resolverNone "n1.example.com".data) (by decide)⟩

/-- Claim C8: merging a probe result whose index is at or beyond the current
store length leaves the store completely unchanged, and no merge ever
changes the store's length. -/
theorem claim_C8 :
    (∀ (hosts : List Host) (idx : Nat) (st : Option Str), hosts.length ≤ idx →
        updateHostStatus hosts idx st = hosts)
    ∧ (∀ (hosts : List Host) (idx : Nat) (st : Option Str),
        (updateHostStatus hosts idx st).length = hosts.length) := by
  constructor
  · intro hosts idx st h
    have hn : hosts[idx]? = none := List.getElem?_eq_none h
    simp only [updateHostStatus, hn]
  · intro hosts idx st
    by_cases h : idx < hosts.length
    · obtain ⟨x, hx⟩ : ∃ x, hosts[idx]? = some x := ⟨hosts[idx], List.getElem?_eq_getElem h⟩
      simp only [updateHostStatus, hx, List.length_set]
    · have hn : hosts[idx]? = none := List.getElem?_eq_none (by omega)
      simp only [updateHostStatus, hn]

/-- Claim C8 witness: a late result for a removed index at a concrete
store. -/
theorem claim_C8_witness :
    oneHostS.hosts.length ≤ 5
    ∧ updateHostStatus oneHostS.hosts 5 (some "x".data) = oneHostS.hosts :=
  ⟨by decide, claim_C8.1 oneHostS.hosts 5 (some "x".data) (by decide)⟩

/-- Claim C9 counterexample: pressing down at Username with an empty store
moves focus to the Table (the `table.focus()` call at `sparx.py:1157` is
unconditional), so focus does not remain at Username as claimed. -/
theorem claim_C9_counterexample :
    (action_move_down 0 { focus := Focus.username, sel := none } (fun f => f)).focus
      = Focus.table
    ∧ Focus.table ≠ Focus.username := by
  refine ⟨by decide, by decide⟩

/-- Claim C9 as amended: in the Table, pressing up at row 0 or with no
selection moves focus to Username for every store length including zero;
and pressing down at Username always moves focus to the Table, selecting
row 0 exactly when at least one row exists and leaving the selection
untouched otherwise. -/
theorem claim_C9_amended :
    (∀ (n : Nat) (sel : Option Nat) (fb : Focus → Focus), sel = none ∨ sel = some 0 →
        (action_move_up n { focus := Focus.table, sel := sel } fb).focus = Focus.username)
    ∧ (∀ (n : Nat) (sel : Option Nat) (fb : Focus → Focus),
        action_move_down n { focus := Focus.username, sel := sel } fb
          = { focus := Focus.table, sel := if 0 < n then some 0 else sel }) := by
  constructor
  · intro n sel fb hsel
    rcases hsel with rfl | rfl
    · by_cases hn : n = 0 <;> simp [action_move_up, hn]
    · by_cases hn : n = 0 <;> simp [action_move_up, hn]
  · intro n sel fb
    rfl

/-- Claim C9 witness: the up transition at an empty store. -/
theorem claim_C9_witness :
    ((none : Option Nat) = none ∨ (none : Option Nat) = some 0)
    ∧ (action_move_up 0 { focus := Focus.table, sel := none } (fun f => f)).focus
      = Focus.username :=
  ⟨Or.inl rfl, claim_C9_amended.1 0 none (fun f => f) (Or.inl rfl)⟩

/-- Claim C10: a well-formed dash range whose numeric start exceeds its
numeric end is accepted by the validation predicate (its anchored regex
never compares the bounds) while its expansion is the empty list, so an
input that passes the field check can add zero hosts. -/
theorem claim_C10 :
    ∀ (pre m n suf : Str),
      (∀ c ∈ pre, isHostPatChar c = true) → (∀ c ∈ suf, isHostPatChar c = true) →
      m ≠ [] → (∀ c ∈ m, c.isDigit = true) → n ≠ [] → (∀ c ∈ n, c.isDigit = true) →
      digitsToNat n < digitsToNat m →
      validate_hostname (pre ++ '[' :: (m ++ '-' :: (n ++ ']' :: suf))) = true
        ∧ expand_host_pattern (pre ++ '[' :: (m ++ '-' :: (n ++ ']' :: suf))) = [] := by
  intro pre m n suf hpre hsuf hm hmd hn hnd hlt
  have hsufbr : '[' ∉ suf := by
    intro hc
    have := hsuf _ hc
    exact absurd this (by decide)
  exact ⟨validate_dash_true pre m n suf hpre hsuf hm hmd hn hnd,
    expand_dash_empty pre m n suf hm hmd hn hnd hsufbr hlt⟩

/-- Claim C10 witness: the accepted-but-empty behaviour at `host[3-1].com`. -/
theorem claim_C10_witness :
    digitsToNat "1".data < digitsToNat "3".data
    ∧ (validate_hostname
          ("host".data ++ '[' :: ("3".data ++ '-' :: ("1".data ++ ']' :: ".com".data))) = true
        ∧ expand_host_pattern
          ("host".data ++ '[' :: ("3".data ++ '-' :: ("1".data ++ ']' :: ".com".data))) = []) :=
  ⟨by decide,
    claim_C10 "host".data "3".data "1".data ".com".data (by decide) (by decide) (by decide)
      (by decide) (by decide) (by decide) (by decide)⟩

end Sparx
